import Mathlib

/-
Verification development for a small Redis-compatible server (Rust).
The wire value model, encoder, command parser and in-memory store are
embedded shallowly: byte strings are lists of naturals (each a byte
value), Rust Vec/String become List, BTreeMap and DashMap become
association lists with explicit ordering or lookup functions, and
fallible conversions return Except.

The Rust enum RespFrame has a Double(f64) variant. IEEE-754 doubles and
the float formatting used by its encoder are outside this embedding, so
that variant is omitted here; claims that depend on it are settled
separately as not statable.

Error payload strings (the human-readable messages carried by
CommandError) are diagnostic only and are not modelled; the error
constructors themselves are.
-/

namespace RustRedis

/-- Wire frames, from src/resp/mod.rs (enum RespFrame and the wrapper
structs SimpleString, SimpleError, BulkString, RespArray, RespNull,
RespNullArray, RespNullBulkString, RespMap, RespSet). Text is kept as
its UTF-8 bytes, so String and Vec of u8 both become List Nat; the
BTreeMap inside RespMap becomes its association list, which the BTreeMap
invariant keeps strictly sorted by key. The Double(f64) variant of the
Rust enum is not modelled (floating point). -/
inductive RespFrame where
  | simpleString (s : List Nat)
  | simpleError (s : List Nat)
  | integer (n : Int)
  | bulkString (b : List Nat)
  | nullBulkString
  | array (items : List RespFrame)
  | null
  | nullArray
  | boolean (b : Bool)
  | map (entries : List (List Nat × RespFrame))
  | respSet (items : List RespFrame)

/-- The two-byte CRLF terminator. -/
def crlf : List Nat := [13, 10]

/-- Decimal digits of a natural number as ASCII byte values, matching
the Rust Display formatting of an unsigned number. -/
def natDecimal (n : Nat) : List Nat :=
  (Nat.toDigits 10 n).map Char.toNat

/-- Rust Display formatting of an i64: a leading minus sign for negative
values, then the decimal digits of the absolute value. -/
def rustI64 (n : Int) : List Nat :=
  if n < 0 then 45 :: natDecimal n.natAbs else natDecimal n.natAbs

mutual

/-- Encoder, from src/resp/encode.rs (the RespEncode impls, dispatched
over the enum by enum_dispatch). Byte constants: 43 is the plus sign,
45 the minus sign, 58 the colon, 36 the dollar, 42 the asterisk, 95 the
underscore, 35 the hash mark, 37 the percent sign, 126 the tilde,
116 the letter t, 102 the letter f, 49 the digit one. -/
def encodeFrame : RespFrame → List Nat
  | .simpleString s => 43 :: (s ++ crlf)
  | .simpleError s => 45 :: (s ++ crlf)
  | .integer n => 58 :: ((if n < 0 then [] else [43]) ++ rustI64 n ++ crlf)
  | .bulkString b => 36 :: (natDecimal b.length ++ crlf ++ b ++ crlf)
  | .nullBulkString => [36, 45, 49, 13, 10]
  | .array items => 42 :: (natDecimal items.length ++ crlf ++ encodeList items)
  | .null => [95, 13, 10]
  | .nullArray => [42, 45, 49, 13, 10]
  | .boolean b => [35, if b then 116 else 102, 13, 10]
  | .map entries => 37 :: (natDecimal entries.length ++ crlf ++ encodeEntries entries)
  | .respSet items => 126 :: (natDecimal items.length ++ crlf ++ encodeList items)

/-- Concatenation of the encodings of a list of frames, as the loops in
the RespArray and RespSet encoders produce. -/
def encodeList : List RespFrame → List Nat
  | [] => []
  | f :: fs => encodeFrame f ++ encodeList fs

/-- Concatenation of the encodings of map entries: each key is encoded
as a SimpleString, immediately followed by the encoded value, as the
loop in the RespMap encoder produces. -/
def encodeEntries : List (List Nat × RespFrame) → List Nat
  | [] => []
  | (k, v) :: rest => (43 :: (k ++ crlf)) ++ encodeFrame v ++ encodeEntries rest

end

/-- Boolean test for the BulkString variant, used to state the grammar
rejection rule for a first array element that is not a BulkString. -/
def RespFrame.isBulk : RespFrame → Bool
  | .bulkString _ => true
  | _ => false

/-- ASCII lowercase of one byte, from the u8 to_ascii_lowercase in
validate_command: bytes 65 through 90 (the uppercase letters) shift up
by 32, all other bytes are unchanged. -/
def asciiLowerByte (b : Nat) : Nat :=
  if 65 ≤ b ∧ b ≤ 90 then b + 32 else b

/-- Bytewise ASCII lowercase of a byte string, from the slice method
to_ascii_lowercase used in validate_command. -/
def asciiLower (bs : List Nat) : List Nat :=
  bs.map asciiLowerByte

/-- One byte of the UTF-8 continuation range (high bits 10). -/
def utf8Cont (b : Nat) : Bool :=
  128 ≤ b && b ≤ 191

/-- UTF-8 validity of a byte string, the check performed by
String::from_utf8 in the Rust standard library: ASCII bytes stand alone;
two-byte sequences have a lead byte 194 through 223; three- and four-byte
sequences follow the standard lead/continuation table that excludes
overlong forms, surrogate code points and values above 0x10FFFF. -/
def utf8Valid : List Nat → Bool
  | [] => true
  | b :: rest =>
    if b ≤ 127 then utf8Valid rest
    else if b < 194 then false
    else if b ≤ 223 then
      match rest with
      | c1 :: r => utf8Cont c1 && utf8Valid r
      | [] => false
    else if b = 224 then
      match rest with
      | c1 :: c2 :: r => (160 ≤ c1 && c1 ≤ 191) && utf8Cont c2 && utf8Valid r
      | _ => false
    else if b ≤ 236 then
      match rest with
      | c1 :: c2 :: r => utf8Cont c1 && utf8Cont c2 && utf8Valid r
      | _ => false
    else if b = 237 then
      match rest with
      | c1 :: c2 :: r => (128 ≤ c1 && c1 ≤ 159) && utf8Cont c2 && utf8Valid r
      | _ => false
    else if b ≤ 239 then
      match rest with
      | c1 :: c2 :: r => utf8Cont c1 && utf8Cont c2 && utf8Valid r
      | _ => false
    else if b = 240 then
      match rest with
      | c1 :: c2 :: c3 :: r =>
        (144 ≤ c1 && c1 ≤ 191) && utf8Cont c2 && utf8Cont c3 && utf8Valid r
      | _ => false
    else if b ≤ 243 then
      match rest with
      | c1 :: c2 :: c3 :: r =>
        utf8Cont c1 && utf8Cont c2 && utf8Cont c3 && utf8Valid r
      | _ => false
    else if b = 244 then
      match rest with
      | c1 :: c2 :: c3 :: r =>
        (128 ≤ c1 && c1 ≤ 143) && utf8Cont c2 && utf8Cont c3 && utf8Valid r
      | _ => false
    else false

/-- The five command tokens, as byte strings: get, set, hget, hset,
hgetall. -/
def getTok : List Nat := [103, 101, 116]

/-- Byte string of the token set. -/
def setTok : List Nat := [115, 101, 116]

/-- Byte string of the token hget. -/
def hgetTok : List Nat := [104, 103, 101, 116]

/-- Byte string of the token hset. -/
def hsetTok : List Nat := [104, 115, 101, 116]

/-- Byte string of the token hgetall. -/
def hgetallTok : List Nat := [104, 103, 101, 116, 97, 108, 108]

/-- Typed commands, from the Command enum in src/cmd/mod.rs together
with the field layouts of the Get, Set, HGet, HSet and HGetAll structs.
Keys and fields, Strings in Rust, are kept as their UTF-8 bytes. -/
inductive Command where
  | get (key : List Nat)
  | set (key : List Nat) (value : RespFrame)
  | hget (key field : List Nat)
  | hset (key field : List Nat) (value : RespFrame)
  | hgetall (key : List Nat)

/-- Command-level errors, from the CommandError enum in src/cmd/mod.rs.
The String payloads (human-readable messages) are not modelled, nor is
the RespError variant, which only arises from the decoder. -/
inductive CommandError where
  | invalidCommand
  | invalidArguments
  | utf8Error
deriving DecidableEq

/-- The name-token loop of validate_command in src/cmd/mod.rs: each of
the first names.length elements must be a BulkString whose ASCII
lowercasing equals the expected token; a mismatch or a non-BulkString
element yields InvalidCommand. This function is only applied after the
length check, so the list of elements is at least as long as the list of
names. -/
def checkNames : List RespFrame → List (List Nat) → Except CommandError Unit
  | _, [] => .ok ()
  | .bulkString cmd :: rest, name :: names =>
    if asciiLower cmd = name then checkNames rest names
    else .error .invalidCommand
  | _ :: _, _ :: _ => .error .invalidCommand
  | [], _ :: _ => .error .invalidCommand

/-- validate_command from src/cmd/mod.rs: the array must have exactly
names.length + nArgs elements, otherwise InvalidArguments; then the
leading name tokens are checked case-insensitively by checkNames. -/
def validateCommand (value : List RespFrame) (names : List (List Nat))
    (nArgs : Nat) : Except CommandError Unit :=
  if value.length = nArgs + names.length then checkNames value names
  else .error .invalidArguments

/-- extract_args from src/cmd/mod.rs: all elements from index start to
the end of the array. -/
def extractArgs (value : List RespFrame) (start : Nat) : List RespFrame :=
  value.drop start

/-- TryFrom RespArray for Get, from src/cmd/map.rs: validate with name
token get and one extra argument, then the single argument must be a
BulkString whose bytes decode as UTF-8 to give the key; a UTF-8 failure
is the distinct text-decoding error, any other shape is
InvalidArguments. -/
def getTryFrom (frame : List RespFrame) : Except CommandError Command :=
  match validateCommand frame [getTok] 1 with
  | .error e => .error e
  | .ok _ =>
    match (extractArgs frame 1).head? with
    | some (.bulkString key) =>
      if utf8Valid key then .ok (.get key) else .error .utf8Error
    | _ => .error .invalidArguments

/-- TryFrom RespArray for Set, from src/cmd/map.rs: validate with name
token set and two extra arguments, then the first argument must be a
BulkString key (UTF-8 required) and the second may be any frame. -/
def setTryFrom (frame : List RespFrame) : Except CommandError Command :=
  match validateCommand frame [setTok] 2 with
  | .error e => .error e
  | .ok _ =>
    match extractArgs frame 1 with
    | .bulkString key :: value :: _ =>
      if utf8Valid key then .ok (.set key value) else .error .utf8Error
    | _ => .error .invalidArguments

/-- Modelled from the spec: the file src/cmd/hmap.rs (declared by mod
hmap in src/cmd/mod.rs) is not available, so the HGet parser follows
section 4.3 of the specification: name token hget, two extra arguments,
key and field both BulkStrings decoded as UTF-8; validation and
extraction mirror the Get and Set parsers of src/cmd/map.rs. -/
def hgetTryFrom (frame : List RespFrame) : Except CommandError Command :=
  match validateCommand frame [hgetTok] 2 with
  | .error e => .error e
  | .ok _ =>
    match extractArgs frame 1 with
    | .bulkString key :: .bulkString field :: _ =>
      if utf8Valid key then
        if utf8Valid field then .ok (.hget key field) else .error .utf8Error
      else .error .utf8Error
    | _ => .error .invalidArguments

/-- Modelled from the spec: src/cmd/hmap.rs is not available, so the
HSet parser follows section 4.3 of the specification: name token hset,
three extra arguments, key and field BulkStrings decoded as UTF-8, value
any frame stored as is. -/
def hsetTryFrom (frame : List RespFrame) : Except CommandError Command :=
  match validateCommand frame [hsetTok] 3 with
  | .error e => .error e
  | .ok _ =>
    match extractArgs frame 1 with
    | .bulkString key :: .bulkString field :: value :: _ =>
      if utf8Valid key then
        if utf8Valid field then .ok (.hset key field value)
        else .error .utf8Error
      else .error .utf8Error
    | _ => .error .invalidArguments

/-- Modelled from the spec: src/cmd/hmap.rs is not available, so the
HGetAll parser follows section 4.3 of the specification: name token
hgetall, one extra argument, the key as a BulkString decoded as
UTF-8. -/
def hgetallTryFrom (frame : List RespFrame) : Except CommandError Command :=
  match validateCommand frame [hgetallTok] 1 with
  | .error e => .error e
  | .ok _ =>
    match (extractArgs frame 1).head? with
    | some (.bulkString key) =>
      if utf8Valid key then .ok (.hgetall key) else .error .utf8Error
    | _ => .error .invalidArguments

/-- TryFrom RespArray for Command, from src/cmd/mod.rs: the first
element must be a BulkString, and its exact bytes are matched against
the lowercase tokens get, set, hget, hset, hgetall to select the
per-command parser; any other byte string, or a first element that is
not a BulkString, or an empty array, yields InvalidCommand. -/
def commandTryFrom (frame : List RespFrame) : Except CommandError Command :=
  match frame.head? with
  | some (.bulkString cmd) =>
    if cmd = getTok then getTryFrom frame
    else if cmd = setTok then setTryFrom frame
    else if cmd = hgetTok then hgetTryFrom frame
    else if cmd = hsetTok then hsetTryFrom frame
    else if cmd = hgetallTok then hgetallTryFrom frame
    else .error .invalidCommand
  | _ => .error .invalidCommand

/-- The required total element count of a request array whose first
element carries the given recognized command token: the token itself
plus the extra arguments of the command (one for get, two for set, two
for hget, three for hset, one for hgetall). -/
def requiredLen (cmd : List Nat) : Nat :=
  if cmd = getTok then 2
  else if cmd = setTok then 3
  else if cmd = hgetTok then 3
  else if cmd = hsetTok then 4
  else if cmd = hgetallTok then 2
  else 0

/-- Association-list lookup: the value stored under the first matching
key, the abstraction of a DashMap get followed by cloning the value. -/
def alGet {α : Type} : List (List Nat × α) → List Nat → Option α
  | [], _ => none
  | (k, v) :: rest, key => if k = key then some v else alGet rest key

/-- Association-list insertion: replaces the value under an existing key
and otherwise appends a new entry, the abstraction of a DashMap
insert. -/
def alInsert {α : Type} : List (List Nat × α) → List Nat → α → List (List Nat × α)
  | [], key, v => [(key, v)]
  | (k, w) :: rest, key, v =>
    if k = key then (key, v) :: rest else (k, w) :: alInsert rest key v

/-- The store state, from BackendInner in src/backend/mod.rs: a scalar
namespace (DashMap from String keys to frames) and a hash namespace
(DashMap from String keys to inner DashMaps from String fields to
frames), both modelled as association lists over UTF-8 byte keys. -/
structure Backend where
  map : List (List Nat × RespFrame)
  hmap : List (List Nat × List (List Nat × RespFrame))

/-- The empty store, from Backend::new and the Default impls. -/
def Backend.new : Backend := ⟨[], []⟩

/-- Backend::get from src/backend/mod.rs: look the key up in the scalar
namespace; absent keys give none. -/
def Backend.get (st : Backend) (key : List Nat) : Option RespFrame :=
  alGet st.map key

/-- Backend::set from src/backend/mod.rs: store the value under the key
in the scalar namespace, replacing any prior value. -/
def Backend.set (st : Backend) (key : List Nat) (v : RespFrame) : Backend :=
  { st with map := alInsert st.map key v }

/-- Backend::hget from src/backend/mod.rs: two-level lookup; a missing
key or a missing field gives none. -/
def Backend.hget (st : Backend) (key field : List Nat) : Option RespFrame :=
  (alGet st.hmap key).bind fun inner => alGet inner field

/-- Backend::hset from src/backend/mod.rs: the entry call with
or_default takes the existing inner mapping of the key or an empty one,
and the field is then inserted or overwritten in it. -/
def Backend.hset (st : Backend) (key field : List Nat) (v : RespFrame) : Backend :=
  { st with
    hmap := alInsert st.hmap key
      (alInsert ((alGet st.hmap key).getD []) field v) }

/-- Backend::hgetall from src/backend/mod.rs: a clone of the inner
mapping of the key when present, none otherwise. -/
def Backend.hgetall (st : Backend) (key : List Nat) :
    Option (List (List Nat × RespFrame)) :=
  alGet st.hmap key

/-- Strict lexicographic order on byte strings, the Ord instance of Rust
String restricted to its UTF-8 bytes (Rust compares Strings by their
bytes), which is the key order a BTreeMap with String keys iterates
in. -/
def bytesLt : List Nat → List Nat → Bool
  | [], [] => false
  | [], _ :: _ => true
  | _ :: _, [] => false
  | a :: as, b :: bs =>
    if a < b then true else if b < a then false else bytesLt as bs

/-- Insertion into a key-sorted association list, the abstraction of
BTreeMap::insert: the new entry is placed before the first strictly
larger key, and an entry with an equal key is replaced in place. -/
def mapInsert : List (List Nat × RespFrame) → List Nat → RespFrame →
    List (List Nat × RespFrame)
  | [], key, v => [(key, v)]
  | (k, w) :: rest, key, v =>
    if bytesLt key k then (key, v) :: (k, w) :: rest
    else if key = k then (key, v) :: rest
    else (k, w) :: mapInsert rest key v

/-- A RespMap built by inserting a list of entries in order into an
initially empty BTreeMap, as RespMap::new followed by insert calls
produces. -/
def mapOfList (l : List (List Nat × RespFrame)) : List (List Nat × RespFrame) :=
  l.foldl (fun acc kv => mapInsert acc kv.1 kv.2) []

/-- Strict ascending sortedness of the keys of an association list, the
iteration-order invariant of a BTreeMap. -/
def keysSorted : List (List Nat × RespFrame) → Bool
  | [] => true
  | [_] => true
  | a :: b :: rest => bytesLt a.1 b.1 && keysSorted (b :: rest)

/-- The constant OK reply, from the RESP_OK lazy static in
src/cmd/mod.rs: the SimpleString with bytes O K. -/
def respOk : RespFrame := .simpleString [79, 75]

/-- The Get executor, from src/cmd/map.rs: the stored value when the key
is present, Null otherwise; the store is unchanged. -/
def execGet (key : List Nat) (st : Backend) : RespFrame × Backend :=
  (match st.get key with
   | some v => v
   | none => .null, st)

/-- The Set executor, from src/cmd/map.rs: store the value and reply
with the constant OK SimpleString. -/
def execSet (key : List Nat) (v : RespFrame) (st : Backend) : RespFrame × Backend :=
  (respOk, st.set key v)

/-- Modelled from the spec: src/cmd/hmap.rs is not available, so the
HGet executor follows section 4.4 of the specification: the stored value
when key and field are present, Null when either is missing; the store
is unchanged. -/
def execHGet (key field : List Nat) (st : Backend) : RespFrame × Backend :=
  (match st.hget key field with
   | some v => v
   | none => .null, st)

/-- Modelled from the spec: src/cmd/hmap.rs is not available, so the
HSet executor follows section 4.4 of the specification: store the value
under the field of the key and reply with the constant OK
SimpleString. -/
def execHSet (key field : List Nat) (v : RespFrame) (st : Backend) :
    RespFrame × Backend :=
  (respOk, st.hset key field v)

/-- Modelled from the spec: src/cmd/hmap.rs is not available, so the
HGetAll executor follows section 4.4 of the specification: when the key
is present, a Map frame built from the inner field-to-value mapping;
when the key is missing, Null (not an empty Map); the store is
unchanged. -/
def execHGetAll (key : List Nat) (st : Backend) : RespFrame × Backend :=
  (match st.hgetall key with
   | some inner => .map (mapOfList inner)
   | none => .null, st)

/-- Dispatch of a typed command to its executor, the enum_dispatch of
CommandExecutor over the Command enum in src/cmd/mod.rs. -/
def Command.execute : Command → Backend → RespFrame × Backend
  | .get key, st => execGet key st
  | .set key v, st => execSet key v st
  | .hget key field, st => execHGet key field st
  | .hset key field v, st => execHSet key field v st
  | .hgetall key, st => execHGetAll key st

theorem alGet_alInsert_self {α : Type} (m : List (List Nat × α)) (k : List Nat)
    (v : α) : alGet (alInsert m k v) k = some v := by
  induction m with
  | nil => simp [alInsert, alGet]
  | cons hd tl ih =>
    obtain ⟨k1, w⟩ := hd
    by_cases h : k1 = k
    · simp [alInsert, h, alGet]
    · simp [alInsert, h, alGet, ih]

theorem alGet_alInsert_ne {α : Type} (m : List (List Nat × α)) (k k' : List Nat)
    (v : α) (hne : k' ≠ k) : alGet (alInsert m k v) k' = alGet m k' := by
  induction m with
  | nil => simp [alInsert, alGet, Ne.symm hne]
  | cons hd tl ih =>
    obtain ⟨k1, w⟩ := hd
    by_cases h : k1 = k
    · simp [alInsert, h, alGet, Ne.symm hne]
    · simp [alInsert, h, alGet, ih]

theorem bytesLt_total (a : List Nat) :
    ∀ b : List Nat, bytesLt a b = false → a ≠ b → bytesLt b a = true := by
  induction a with
  | nil =>
    intro b hf hne
    cases b with
    | nil => exact absurd rfl hne
    | cons y ys => simp [bytesLt] at hf
  | cons x xs ih =>
    intro b hf hne
    cases b with
    | nil => simp [bytesLt]
    | cons y ys =>
      simp only [bytesLt] at hf ⊢
      by_cases h1 : x < y
      · simp [h1] at hf
      · by_cases h2 : y < x
        · simp [h1, h2]
        · have hxy : x = y := Nat.le_antisymm (Nat.not_lt.mp h2) (Nat.not_lt.mp h1)
          simp only [h1, h2, if_false] at hf ⊢
          exact ih ys hf fun hEq => hne (by rw [hxy, hEq])

theorem bytesLt_irrefl (a : List Nat) : bytesLt a a = false := by
  induction a with
  | nil => rfl
  | cons x xs ih => simp [bytesLt, ih]

theorem keysSorted_cons_iff (a : List Nat × RespFrame)
    (l : List (List Nat × RespFrame)) :
    keysSorted (a :: l) = true ↔
      (∀ b ∈ l.head?, bytesLt a.1 b.1 = true) ∧ keysSorted l = true := by
  cases l with
  | nil => simp [keysSorted]
  | cons b tl => simp [keysSorted, Bool.and_eq_true]

theorem mapInsert_headKey (m : List (List Nat × RespFrame)) (k : List Nat)
    (v : RespFrame) :
    ∀ p ∈ (mapInsert m k v).head?, p.1 = k ∨ ∃ q ∈ m.head?, p.1 = q.1 := by
  cases m with
  | nil => simp [mapInsert]
  | cons hd tl =>
    obtain ⟨k1, w1⟩ := hd
    by_cases h1 : bytesLt k k1 = true
    · simp [mapInsert, h1]
    · by_cases h2 : k = k1
      · simp [mapInsert, h1, h2, bytesLt_irrefl]
      · simp [mapInsert, h1, h2]

theorem keysSorted_mapInsert (k : List Nat) (v : RespFrame) :
    ∀ m, keysSorted m = true → keysSorted (mapInsert m k v) = true := by
  intro m
  induction m with
  | nil => intro _; rfl
  | cons hd tl ih =>
    obtain ⟨k1, w1⟩ := hd
    intro hs
    rw [keysSorted_cons_iff] at hs
    by_cases h1 : bytesLt k k1 = true
    · rw [show mapInsert ((k1, w1) :: tl) k v = (k, v) :: (k1, w1) :: tl from by
        simp [mapInsert, h1]]
      rw [keysSorted_cons_iff]
      exact ⟨by simp [h1], by rw [keysSorted_cons_iff]; exact hs⟩
    · by_cases h2 : k = k1
      · rw [show mapInsert ((k1, w1) :: tl) k v = (k, v) :: tl from by
          simp [mapInsert, h1, h2, bytesLt_irrefl]]
        rw [keysSorted_cons_iff]
        exact ⟨fun b hb => h2 ▸ hs.1 b hb, hs.2⟩
      · have h3 : bytesLt k1 k = true :=
          bytesLt_total k k1 (by simpa using h1) h2
        rw [show mapInsert ((k1, w1) :: tl) k v = (k1, w1) :: mapInsert tl k v from by
          simp [mapInsert, h1, h2]]
        rw [keysSorted_cons_iff]
        refine ⟨?_, ih hs.2⟩
        intro b hb
        rcases mapInsert_headKey tl k v b hb with hbk | ⟨q, hq, hbq⟩
        · rw [hbk]; exact h3
        · rw [hbq]; exact hs.1 q hq

theorem keysSorted_foldl (l : List (List Nat × RespFrame)) :
    ∀ acc, keysSorted acc = true →
      keysSorted (l.foldl (fun a kv => mapInsert a kv.1 kv.2) acc) = true := by
  induction l with
  | nil => intro acc h; simpa using h
  | cons hd tl ih =>
    intro acc h
    rw [List.foldl_cons]
    exact ih _ (keysSorted_mapInsert hd.1 hd.2 acc h)

theorem keysSorted_mapOfList (l : List (List Nat × RespFrame)) :
    keysSorted (mapOfList l) = true :=
  keysSorted_foldl l [] rfl

/-- C8: for every signed 64-bit integer n, encoding Integer(n) produces
a colon, an always-present sign byte (plus for n at least zero, minus
for negative n), the decimal digits of the absolute value of n, and
CRLF. -/
theorem c8_integer_encode (n : Int) (_h1 : -(2 ^ 63) ≤ n) (_h2 : n < 2 ^ 63) :
    encodeFrame (.integer n) =
      58 :: (if 0 ≤ n then 43 else 45) :: (natDecimal n.natAbs ++ crlf) := by
  by_cases h : n < 0
  · simp [encodeFrame, rustI64, h, Int.not_le.mpr h]
  · simp [encodeFrame, rustI64, h, Int.not_lt.mp h]

/-- C8 witness: Integer(123) encodes as `:+123` CRLF and Integer(-123)
as `:-123` CRLF. -/
theorem c8_integer_encode_witness :
    (-(2 ^ 63) ≤ (123 : Int) ∧ (123 : Int) < 2 ^ 63 ∧
      encodeFrame (.integer 123) = [58, 43, 49, 50, 51, 13, 10]) ∧
    (-(2 ^ 63) ≤ (-123 : Int) ∧ (-123 : Int) < 2 ^ 63 ∧
      encodeFrame (.integer (-123)) = [58, 45, 49, 50, 51, 13, 10]) := by
  refine ⟨⟨by decide, by decide, ?_⟩, ⟨by decide, by decide, ?_⟩⟩
  · exact (c8_integer_encode 123 (by decide) (by decide)).trans (by decide)
  · exact (c8_integer_encode (-123) (by decide) (by decide)).trans (by decide)

/-- C5: read-your-write on the store: immediately after set(k,x), get(k)
returns x; immediately after hset(k,f,x), hget(k,f) returns x and
hgetall(k) returns a mapping containing the entry from f to x. -/
theorem c5_read_your_write (st : Backend) (k f : List Nat) (x : RespFrame) :
    (st.set k x).get k = some x ∧
    (st.hset k f x).hget k f = some x ∧
    ∃ inner, (st.hset k f x).hgetall k = some inner ∧ alGet inner f = some x := by
  refine ⟨?_, ?_, ?_⟩
  · simp [Backend.set, Backend.get, alGet_alInsert_self]
  · simp [Backend.hset, Backend.hget, alGet_alInsert_self]
  · refine ⟨alInsert ((alGet st.hmap k).getD []) f x, ?_,
      alGet_alInsert_self _ f x⟩
    simp [Backend.hset, Backend.hgetall, alGet_alInsert_self]

/-- C6: on a store where key k is absent from the scalar namespace,
dispatching Get(k) returns Null; where hash key k is absent or field f
is absent from its inner mapping, dispatching HGet(k,f) returns Null;
and dispatching HGetAll(k) on an absent hash key returns Null, not an
empty Map. No operation deletes, so a never-set key is exactly an
absent one. -/
theorem c6_absence (st : Backend) (k f : List Nat) :
    (alGet st.map k = none → Command.execute (.get k) st = (.null, st)) ∧
    ((alGet st.hmap k = none ∨
        ∃ inner, alGet st.hmap k = some inner ∧ alGet inner f = none) →
      Command.execute (.hget k f) st = (.null, st)) ∧
    (alGet st.hmap k = none → Command.execute (.hgetall k) st = (.null, st)) := by
  refine ⟨fun h => ?_, fun h => ?_, fun h => ?_⟩
  · simp [Command.execute, execGet, Backend.get, h]
  · rcases h with h | ⟨inner, hi, hf⟩
    · simp [Command.execute, execHGet, Backend.hget, h]
    · simp [Command.execute, execHGet, Backend.hget, hi, hf]
  · simp [Command.execute, execHGetAll, Backend.hgetall, h]

/-- C6 witness: on the empty store, Get, HGet and HGetAll all return
Null for a key that was never set. -/
theorem c6_absence_witness :
    Command.execute (.get [107]) Backend.new = (.null, Backend.new) ∧
    Command.execute (.hget [107] [102]) Backend.new = (.null, Backend.new) ∧
    Command.execute (.hgetall [107]) Backend.new = (.null, Backend.new) :=
  ⟨(c6_absence Backend.new [107] [102]).1 rfl,
   (c6_absence Backend.new [107] [102]).2.1 (Or.inl rfl),
   (c6_absence Backend.new [107] [102]).2.2 rfl⟩

/-- C10: frame conditions: set(k,v) leaves the whole hash namespace
unchanged (hget and hgetall on every key, including k itself) and the
scalar values of all other keys; hset(k,f,v) leaves the whole scalar
namespace unchanged, every hash key other than k unchanged, and every
field of k other than f unchanged. -/
theorem c10_frame_conditions (st : Backend) (k k' f f' : List Nat)
    (v : RespFrame) :
    ((st.set k v).hget k' f' = st.hget k' f' ∧
     (st.set k v).hgetall k' = st.hgetall k' ∧
     (k' ≠ k → (st.set k v).get k' = st.get k')) ∧
    ((st.hset k f v).get k' = st.get k' ∧
     (k' ≠ k → (st.hset k f v).hget k' f' = st.hget k' f') ∧
     (k' ≠ k → (st.hset k f v).hgetall k' = st.hgetall k') ∧
     (f' ≠ f → (st.hset k f v).hget k f' = st.hget k f')) := by
  refine ⟨⟨rfl, rfl, fun h => ?_⟩, rfl, fun h => ?_, fun h => ?_, fun h => ?_⟩
  · simp [Backend.set, Backend.get, alGet_alInsert_ne _ _ _ _ h]
  · simp [Backend.hset, Backend.hget, alGet_alInsert_ne _ _ _ _ h]
  · simp [Backend.hset, Backend.hgetall, alGet_alInsert_ne _ _ _ _ h]
  · simp only [Backend.hset, Backend.hget, alGet_alInsert_self,
      Option.some_bind]
    rw [alGet_alInsert_ne _ _ _ _ h]
    cases hm : alGet st.hmap k with
    | none => simp [alGet]
    | some inner => simp

/-- C10 witness: the frame conditions at a concrete store and concrete
distinct keys and fields. -/
theorem c10_frame_conditions_witness :
    ((Backend.new.set [97] .null).get [98] = Backend.new.get [98]) ∧
    ((Backend.new.hset [97] [99] .null).hget [98] [99] =
      Backend.new.hget [98] [99]) ∧
    ((Backend.new.hset [97] [99] .null).hgetall [98] =
      Backend.new.hgetall [98]) ∧
    ((Backend.new.hset [97] [99] .null).hget [97] [100] =
      Backend.new.hget [97] [100]) :=
  ⟨(c10_frame_conditions Backend.new [97] [98] [99] [100] .null).1.2.2
      (by decide),
   (c10_frame_conditions Backend.new [97] [98] [99] [100] .null).2.2.1
      (by decide),
   (c10_frame_conditions Backend.new [97] [98] [99] [100] .null).2.2.2.1
      (by decide),
   (c10_frame_conditions Backend.new [97] [98] [99] [100] .null).2.2.2.2
      (by decide)⟩

/-- C7: encoding a Map produces the percent byte, the entry count and
CRLF, then the entries, each emitted as the key encoded as a
SimpleString immediately followed by the encoded value, in strictly
ascending key order; concretely, a map holding the keys hello and foo
emits foo before hello. The map is built by BTreeMap insertions from any
entry list in any order. -/
theorem c7_map_encode :
    (∀ l : List (List Nat × RespFrame),
      encodeFrame (.map (mapOfList l)) =
        37 :: (natDecimal (mapOfList l).length ++ crlf ++
          encodeEntries (mapOfList l)) ∧
      keysSorted (mapOfList l) = true) ∧
    encodeFrame (.map (mapOfList
      [([104, 101, 108, 108, 111], .bulkString [119, 111, 114, 108, 100]),
       ([102, 111, 111], .bulkString [98, 97, 114])])) =
      [37, 50, 13, 10,
       43, 102, 111, 111, 13, 10,
       36, 51, 13, 10, 98, 97, 114, 13, 10,
       43, 104, 101, 108, 108, 111, 13, 10,
       36, 53, 13, 10, 119, 111, 114, 108, 100, 13, 10] :=
  ⟨fun l => ⟨rfl, keysSorted_mapOfList l⟩, by decide⟩

/-- C4: grammar rejection: an array whose first element is missing or is
not a BulkString yields InvalidCommand; a first-element BulkString whose
exact bytes match no command token yields InvalidCommand; a matching
token with the wrong total element count yields InvalidArguments. -/
theorem c4_grammar_rejection :
    commandTryFrom [] = .error .invalidCommand ∧
    (∀ (fr : RespFrame) (rest : List RespFrame), fr.isBulk = false →
      commandTryFrom (fr :: rest) = .error .invalidCommand) ∧
    (∀ (cmd : List Nat) (rest : List RespFrame),
      cmd ∉ [getTok, setTok, hgetTok, hsetTok, hgetallTok] →
      commandTryFrom (.bulkString cmd :: rest) = .error .invalidCommand) ∧
    (∀ (cmd : List Nat) (rest : List RespFrame),
      cmd ∈ [getTok, setTok, hgetTok, hsetTok, hgetallTok] →
      (RespFrame.bulkString cmd :: rest).length ≠ requiredLen cmd →
      commandTryFrom (.bulkString cmd :: rest) = .error .invalidArguments) := by
  refine ⟨rfl, ?_, ?_, ?_⟩
  · intro fr rest h
    cases fr <;> simp_all [RespFrame.isBulk, commandTryFrom]
  · intro cmd rest h
    simp only [List.mem_cons, List.not_mem_nil, or_false] at h
    push_neg at h
    obtain ⟨h1, h2, h3, h4, h5⟩ := h
    simp [commandTryFrom, h1, h2, h3, h4, h5]
  · intro cmd rest hmem hlen
    simp only [List.mem_cons, List.not_mem_nil, or_false] at hmem
    rcases hmem with h | h | h | h | h
    · subst h
      rw [show requiredLen getTok = 2 from by decide] at hlen
      have hc : ¬(rest.length = 1) := fun hr => hlen (by simp [hr])
      simp [commandTryFrom, getTryFrom, validateCommand, hc]
    · subst h
      have e1 : ¬(setTok = getTok) := by decide
      rw [show requiredLen setTok = 3 from by decide] at hlen
      have hc : ¬(rest.length = 2) := fun hr => hlen (by simp [hr])
      simp [commandTryFrom, setTryFrom, validateCommand, e1, hc]
    · subst h
      have e1 : ¬(hgetTok = getTok) := by decide
      have e2 : ¬(hgetTok = setTok) := by decide
      rw [show requiredLen hgetTok = 3 from by decide] at hlen
      have hc : ¬(rest.length = 2) := fun hr => hlen (by simp [hr])
      simp [commandTryFrom, hgetTryFrom, validateCommand, e1, e2, hc]
    · subst h
      have e1 : ¬(hsetTok = getTok) := by decide
      have e2 : ¬(hsetTok = setTok) := by decide
      have e3 : ¬(hsetTok = hgetTok) := by decide
      rw [show requiredLen hsetTok = 4 from by decide] at hlen
      have hc : ¬(rest.length = 3) := fun hr => hlen (by simp [hr])
      simp [commandTryFrom, hsetTryFrom, validateCommand, e1, e2, e3, hc]
    · subst h
      have e1 : ¬(hgetallTok = getTok) := by decide
      have e2 : ¬(hgetallTok = setTok) := by decide
      have e3 : ¬(hgetallTok = hgetTok) := by decide
      have e4 : ¬(hgetallTok = hsetTok) := by decide
      rw [show requiredLen hgetallTok = 2 from by decide] at hlen
      have hc : ¬(rest.length = 1) := fun hr => hlen (by simp [hr])
      simp [commandTryFrom, hgetallTryFrom, validateCommand, e1, e2, e3, e4,
        hc]

/-- C4 witness: a non-BulkString first element, an unknown token, and a
known token with the wrong element count, each at a concrete array. -/
theorem c4_grammar_rejection_witness :
    commandTryFrom [.integer 1] = .error .invalidCommand ∧
    commandTryFrom [.bulkString [102, 111, 111]] = .error .invalidCommand ∧
    commandTryFrom [.bulkString getTok] = .error .invalidArguments :=
  ⟨c4_grammar_rejection.2.1 (.integer 1) [] rfl,
   c4_grammar_rejection.2.2.1 [102, 111, 111] [] (by decide),
   c4_grammar_rejection.2.2.2 getTok [] (by decide) (by decide)⟩

/-- C2 counterexample: the claim says the command-name match is
case-insensitive, so that a first element GET (bytes 71 69 84) is
recognized like get; on the code, parsing the array with first element
GET and one key argument yields InvalidCommand, because the top-level
dispatch compares the first element against the lowercase tokens by
exact bytes. -/
theorem c2_counterexample :
    commandTryFrom [.bulkString [71, 69, 84], .bulkString [107, 101, 121]] =
      .error .invalidCommand := rfl

/-- C2 amended: the top-level match is case-sensitive: for every request
array whose first element is a BulkString exactly equal to one of the
lowercase tokens get, set, hget, hset, hgetall, and whose remaining
elements satisfy that command arity and argument shapes (keys and
fields BulkStrings holding valid UTF-8, values arbitrary frames),
parsing yields the corresponding typed Command. -/
theorem c2_amended_parsing (k f : List Nat) (v : RespFrame)
    (hk : utf8Valid k = true) (hf : utf8Valid f = true) :
    commandTryFrom [.bulkString getTok, .bulkString k] = .ok (.get k) ∧
    commandTryFrom [.bulkString setTok, .bulkString k, v] = .ok (.set k v) ∧
    commandTryFrom [.bulkString hgetTok, .bulkString k, .bulkString f] =
      .ok (.hget k f) ∧
    commandTryFrom [.bulkString hsetTok, .bulkString k, .bulkString f, v] =
      .ok (.hset k f v) ∧
    commandTryFrom [.bulkString hgetallTok, .bulkString k] =
      .ok (.hgetall k) := by
  refine ⟨?_, ?_, ?_, ?_, ?_⟩
  · simp [commandTryFrom, getTryFrom, validateCommand, checkNames,
      extractArgs, hk, show asciiLower getTok = getTok from rfl]
  · have e1 : ¬(setTok = getTok) := by decide
    simp [commandTryFrom, setTryFrom, validateCommand, checkNames,
      extractArgs, hk, e1, show asciiLower setTok = setTok from rfl]
  · have e1 : ¬(hgetTok = getTok) := by decide
    have e2 : ¬(hgetTok = setTok) := by decide
    simp [commandTryFrom, hgetTryFrom, validateCommand, checkNames,
      extractArgs, hk, hf, e1, e2, show asciiLower hgetTok = hgetTok from rfl]
  · have e1 : ¬(hsetTok = getTok) := by decide
    have e2 : ¬(hsetTok = setTok) := by decide
    have e3 : ¬(hsetTok = hgetTok) := by decide
    simp [commandTryFrom, hsetTryFrom, validateCommand, checkNames,
      extractArgs, hk, hf, e1, e2, e3,
      show asciiLower hsetTok = hsetTok from rfl]
  · have e1 : ¬(hgetallTok = getTok) := by decide
    have e2 : ¬(hgetallTok = setTok) := by decide
    have e3 : ¬(hgetallTok = hgetTok) := by decide
    have e4 : ¬(hgetallTok = hsetTok) := by decide
    simp [commandTryFrom, hgetallTryFrom, validateCommand, checkNames,
      extractArgs, hk, e1, e2, e3, e4,
      show asciiLower hgetallTok = hgetallTok from rfl]

/-- C2 amended witness: concrete requests with lowercase tokens, the key
bytes k e y, the field byte f and the Null value all parse to the
corresponding typed commands. -/
theorem c2_amended_parsing_witness :
    utf8Valid [107, 101, 121] = true ∧ utf8Valid [102] = true ∧
    commandTryFrom [.bulkString getTok, .bulkString [107, 101, 121]] =
      .ok (.get [107, 101, 121]) ∧
    commandTryFrom [.bulkString hsetTok, .bulkString [107, 101, 121],
      .bulkString [102], .null] = .ok (.hset [107, 101, 121] [102] .null) :=
  ⟨by decide, by decide,
   (c2_amended_parsing [107, 101, 121] [102] .null (by decide) (by decide)).1,
   (c2_amended_parsing [107, 101, 121] [102] .null (by decide)
      (by decide)).2.2.2.1⟩

end RustRedis
